import Mathlib

/-!
Verification model of the hacktopus flow engine (src/main.py).

External effects — subprocess execution inside `run_alias_async` and
`run_command_async`, flow-file loading (`load_flow`), and the on-disk tool
catalog consulted by validation (`load_tool`, directory checks) — are
abstracted as environments (`Env`, `VEnv`).  Everything else is translated
directly from the Python source.

Conventions:
* a Python string value that may be `None` is `Option String`; Python
  truthiness of such a value is `optTruthy`;
* the result dictionaries built by the engine (task results and flow results
  share one dict shape in the source, and a nested flow's result dict is
  stored as-is in the surrounding stage's result list) are the single
  recursive type `Res`;
* a raised-and-uncaught Python exception is `Except.error`; code that runs
  to completion returns `Except.ok`;
* `run_flow_internal` recurses through nested flows; the recursion is driven
  by a fuel parameter (any fuel larger than the depth cap is enough, since
  the source bails out at `flow_depth > 5`).
-/

namespace Hacktopus

/-! ### Data model (flow definitions, §src/main.py lines 99-115, 553-651) -/

/-- A value found in a task's `settings` mapping.  Validation checks
`isinstance(value, bool)`; the engine only uses the value's truthiness.
Non-bool YAML values are kept abstract as `other` with their truthiness. -/
inductive SVal where
  | b (val : Bool)
  | other (truthy : Bool)
deriving DecidableEq

def SVal.truthyVal : SVal → Bool
  | .b v => v
  | .other t => t

def SVal.isBool : SVal → Bool
  | .b _ => true
  | .other _ => false

/-- A task record, as it appears in a stage's `tasks` list.  The source is
duck-typed: the kind of a task is decided by which of the keys `alias`,
`command`, `flow` is present, so all three are optional fields here.
`settings?` is `none` when the record has no `settings` key. -/
structure Task where
  alias? : Option String := none
  command? : Option String := none
  flow? : Option String := none
  settings? : Option (List (String × SVal)) := none
  varMap : List (String × String) := []
deriving DecidableEq

/-- A stage definition.  The field defaults mirror the source's
`stage_def.get('parallel', False)` and
`stage_def.get('distribution', 'broadcast')`. -/
structure StageDef where
  tasks : List Task := []
  parallel : Bool := false
  distribution : String := "broadcast"
deriving DecidableEq

/-- A flow definition: the `stages` mapping and the ordered `flow` list.
An entry of the Python `flow` list is a dict `{'stage': name}`; entries are
modelled by their stage name (validation checks the key is present before
the engine ever reads it). -/
structure FlowDef where
  stages : List (String × StageDef) := []
  flow_order : List String := []
deriving DecidableEq

/-- The result dictionaries threaded through the engine.  Task results carry
`output`/`success`/`tool`; flow results carry `output`/`success`/
`stage_results`; the depth-cap result carries `output`/`success`/`error`.
All of them are dicts in the source and a nested flow's result dict is
appended unchanged to the parent stage's result list, hence one recursive
type with the union of the fields (absent keys are `none` / `[]`). -/
inductive Res where
  | mk (output : Option String) (success : Bool) (tool : Option String)
       (stage_results : List (String × List Res)) (err : Option String)

def Res.output : Res → Option String
  | .mk o _ _ _ _ => o

def Res.success : Res → Bool
  | .mk _ s _ _ _ => s

def Res.tool : Res → Option String
  | .mk _ _ t _ _ => t

def Res.stageResults : Res → List (String × List Res)
  | .mk _ _ _ srs _ => srs

def Res.errMsg : Res → Option String
  | .mk _ _ _ _ e => e

/-- A task result dict `{"output": o, "success": s, "tool": t}`. -/
def Res.task (o : Option String) (s : Bool) (t : String) : Res :=
  .mk o s (some t) [] none

/-- A flow result dict `{"output": o, "success": s, "stage_results": srs}`
(source line 264). -/
def Res.flowR (o : Option String) (s : Bool) (srs : List (String × List Res)) : Res :=
  .mk o s none srs none

/-- The dict returned when the nesting cap is exceeded (source line 76):
`{"output": "", "success": False, "error": "Maximum flow nesting depth exceeded"}`. -/
def Res.exceeded : Res :=
  .mk (some "") false none [] (some "Maximum flow nesting depth exceeded")

/-- Python truthiness of a string-or-None value. -/
def optTruthy : Option String → Bool
  | none => false
  | some s => s != ""

/-- Python `str.strip()`: drop leading and trailing whitespace (Lean's
`Char.isWhitespace` covers the ASCII whitespace the engine's outputs use). -/
def pyStrip (s : String) : String :=
  String.mk (((s.data.dropWhile Char.isWhitespace).reverse.dropWhile Char.isWhitespace).reverse)

/-! ### Small string helpers shared by engine and validation -/

/-- `s.split(':', 1)` followed by 2-unpacking: `some (before, after)` when the
string has a colon, `none` when the unpacking would raise `ValueError`. -/
def splitColonChars : List Char → Option (List Char × List Char)
  | [] => none
  | c :: rest =>
    if c = ':' then some ([], rest)
    else (splitColonChars rest).map (fun p => (c :: p.1, p.2))

def splitColon (s : String) : Option (String × String) :=
  (splitColonChars s.data).map (fun p => (String.mk p.1, String.mk p.2))

/-- `v.startswith('\x7b\x7b')`. -/
def startsBraces (v : String) : Bool :=
  match v.data with
  | '{' :: '{' :: _ => true
  | _ => false

/-- Python slice `v[2:-2]`. -/
def sliceBraces (v : String) : String :=
  (v.drop 2).dropRight 2

/-- `task.get('settings', \x7b\x7d).get(key, dflt)` followed by using the value as a
condition: missing settings dict or missing key give the default, otherwise
the stored value's truthiness. -/
def getSetting (t : Task) (key : String) (dflt : Bool) : Bool :=
  match t.settings? with
  | none => dflt
  | some l =>
    match l.lookup key with
    | none => dflt
    | some v => v.truthyVal

/-- The derived variable mapping for a nested flow (source lines 156-159 and
213-216): `\x7bk: var_values.get(v[2:-2], v) if v.startswith('\x7b\x7b') else v\x7d`. -/
def childVars (varValues vars : List (String × String)) : List (String × String) :=
  vars.map (fun kv =>
    (kv.1, if startsBraces kv.2 then (varValues.lookup (sliceBraces kv.2)).getD kv.2 else kv.2))

/-- A task record is recognized when it has at least one of the three kind
keys the engine dispatches on. -/
def recognizedTask (t : Task) : Bool :=
  t.flow?.isSome || t.alias?.isSome || t.command?.isSome

/-! ### ANSI stripping (source lines 31-34)

The compiled pattern matches `\x1B` followed by either a single character
in `0x40-0x5A` or `0x5C-0x5F` (the class `@-Z` plus the range from
backslash to underscore), or `[` then parameter bytes `0x30-0x3F` (class
`0-?`), then intermediate bytes `0x20-0x2F` (space to slash), then one
final byte `0x40-0x7E` (`@` to tilde).  The three CSI classes are pairwise
disjoint, so the greedy scan below is exactly the regex's backtracking
behaviour.  `re.sub` scans left to right and continues after each match;
`stripGo` is that scan, fuelled by the string length (every step consumes at
least one character, so the fuel never runs out). -/

def isAnsiSingle (c : Char) : Bool :=
  (0x40 ≤ c.toNat && c.toNat ≤ 0x5A) || (0x5C ≤ c.toNat && c.toNat ≤ 0x5F)

def isCsiParam (c : Char) : Bool :=
  0x30 ≤ c.toNat && c.toNat ≤ 0x3F

def isCsiInter (c : Char) : Bool :=
  0x20 ≤ c.toNat && c.toNat ≤ 0x2F

def isCsiFinal (c : Char) : Bool :=
  0x40 ≤ c.toNat && c.toNat ≤ 0x7E

/-- Try to match the part of the pattern after `\x1B` at the head of the
list; on success return the rest of the input after the match. -/
def ansiTail : List Char → Option (List Char)
  | [] => none
  | c :: rest =>
    if isAnsiSingle c then some rest
    else if c = '[' then
      match (rest.dropWhile isCsiParam).dropWhile isCsiInter with
      | d :: rest2 => if isCsiFinal d then some rest2 else none
      | [] => none
    else none

def stripGo : Nat → List Char → List Char
  | 0, l => l
  | _ + 1, [] => []
  | fuel + 1, c :: rest =>
    if c = '\x1b' then
      match ansiTail rest with
      | some rest2 => stripGo fuel rest2
      | none => c :: stripGo fuel rest
    else c :: stripGo fuel rest

def stripAnsiChars (l : List Char) : List Char :=
  stripGo l.length l

/-- `strip_ansi_codes` (source lines 31-34).  The source returns falsy input
unchanged; the only falsy string is `""`, on which the substitution is the
identity anyway. -/
def strip_ansi_codes (s : String) : String :=
  String.mk (stripAnsiChars s.data)

/-! ### Python `str.replace` and `\x7b\x7bname\x7d\x7d` substitution
(source lines 673-681 and 767-769)

`str.replace(old, new)` replaces every non-overlapping occurrence of `old`,
scanning left to right.  The templates substituted by the engine always use
a non-empty pattern `'\x7b\x7b' + name + '\x7d\x7d'`, so the empty-pattern corner of
Python's `replace` is irrelevant; `replaceGo` leaves the string unchanged
for an empty pattern.  The scan is fuelled by the string length: every step
consumes at least one character. -/

def replaceGo (pat rep : List Char) : Nat → List Char → List Char
  | 0, l => l
  | _ + 1, [] => []
  | fuel + 1, c :: rest =>
    if pat.isPrefixOf (c :: rest) && !pat.isEmpty then
      rep ++ replaceGo pat rep fuel ((c :: rest).drop pat.length)
    else
      c :: replaceGo pat rep fuel rest

def replaceAll (pat rep l : List Char) : List Char :=
  replaceGo pat rep l.length l

/-- The placeholder `'\x7b\x7b' + name + '\x7d\x7d'` built by the f-string
`f"\x7b\x7b\x7b\x7b\x7bvname\x7d\x7d\x7d\x7d\x7d"`. -/
def placeholderChars (n : List Char) : List Char :=
  '{' :: '{' :: (n ++ ['}', '}'])

/-- One substitution pass per binding, in binding order: the loop
`for var_name, var_val in var_values.items(): command = command.replace(...)`. -/
def substPairsChars (ps : List (String × String)) (tmpl : List Char) : List Char :=
  ps.foldl (fun acc p => replaceAll (placeholderChars p.1.data) p.2.data acc) tmpl

/-- `run_command_async` lines 768-769: substitute every binding into the raw
command string, in binding order. -/
def commandSubst (varValues : List (String × String)) (command : String) : String :=
  String.mk (substPairsChars varValues command.data)

/-- `run_alias_async` lines 678-681: iterate the alias's declared variable
names and substitute those that have a (possibly transformed) bound value. -/
def aliasSubstChars (processed : List (String × String)) (varNames : List String)
    (tmpl : List Char) : List Char :=
  varNames.foldl
    (fun acc n =>
      match processed.lookup n with
      | some v => replaceAll (placeholderChars n.data) v.data acc
      | none => acc)
    tmpl

/-- Does `pat` occur as a contiguous sublist?  (Used to state which
placeholders survive substitution.) -/
def hasOccur (pat : List Char) : List Char → Bool
  | [] => pat.isEmpty
  | c :: rest => pat.isPrefixOf (c :: rest) || hasOccur pat rest

/-! ### The `\x7b\x7b(.*?)\x7d\x7d` scan used by command-task validation
(source lines 584-585)

`findall` scans left to right; at a `\x7b\x7b` it matches minimally up to the
first `\x7d\x7d` with no newline in between (`.` does not match `\n`), yielding
the captured name; on failure it advances one position. -/

def scanVar : List Char → Option (List Char × List Char)
  | '}' :: '}' :: rest => some ([], rest)
  | '\n' :: _ => none
  | c :: rest => (scanVar rest).map (fun p => (c :: p.1, p.2))
  | [] => none

def findGo : Nat → List Char → List String
  | 0, _ => []
  | fuel + 1, '{' :: '{' :: rest =>
    (match scanVar rest with
     | some p => String.mk p.1 :: findGo fuel p.2
     | none => findGo fuel ('{' :: rest))
  | fuel + 1, _ :: rest => findGo fuel rest
  | _ + 1, [] => []

def findVars (s : String) : List String :=
  findGo s.data.length s.data

/-! ### Validation (source lines 553-651) -/

/-- The tool `config.yaml` fields validation reads (`load_tool` result with
the source's defaults for missing keys). -/
structure ToolCfg where
  run_command : String := ""
  accepts_stdin : Bool := true
  header_flag : String := ""
deriving DecidableEq

/-- The catalog environment validation consults: directory existence, tool
configs, alias names per tool, and flow resolution (`load_flow` returns a
falsy dict for a missing or empty flow file, modelled as `none`). -/
structure VEnv where
  toolDirExists : String → Bool
  toolConfig : String → ToolCfg
  toolAliasNames : String → List String
  flows : String → Option FlowDef

/-- `settings.get(key, dflt)` used as a condition (line 574). -/
def settingsTruthy (settings : List (String × SVal)) (key : String) (dflt : Bool) : Bool :=
  match settings.lookup key with
  | none => dflt
  | some v => v.truthyVal

/-- Lines 576-579 / 592-595: the first known setting whose value is not a
bool yields an error. -/
def checkBoolSettings (suffix : String) : List (String × SVal) → Option String
  | [] => none
  | (k, v) :: rest =>
    if (k == "pipe_input" || k == "pipe_output" || k == "print_output") && !v.isBool then
      some ("Setting \x27" ++ k ++ "\x27 must be a boolean" ++ suffix)
    else checkBoolSettings suffix rest

/-- Lines 586-588: every scanned placeholder name, stripped, must be a key
of the bindings. -/
def checkCmdVars (varValues : List (String × String)) : List String → Option String
  | [] => none
  | n :: ns =>
    if (varValues.lookup (pyStrip n)).isSome then checkCmdVars varValues ns
    else some ("Variable \x27" ++ n ++ "\x27 not provided for command task")

/-- Lines 605-608: every `\x7b\x7b`-mapped child variable must reference an
existing parent binding. -/
def checkChildVars (varValues : List (String × String)) :
    List (String × String) → Option String
  | [] => none
  | kv :: rest =>
    if startsBraces kv.2 && !((varValues.lookup (sliceBraces kv.2)).isSome) then
      some ("Parent variable \x27" ++ kv.2 ++ "\x27 not found")
    else checkChildVars varValues rest

/-- `validate_task` (source lines 553-613).  Note the dispatch order:
`alias`, then `command`, then `flow`, each by key presence. -/
def validateTask (venv : VEnv) (t : Task) (varValues : List (String × String)) :
    Bool × Option String :=
  match t.alias? with
  | some aliasStr =>
    (match splitColon aliasStr with
     | none =>
       (false, some ("Alias \x27" ++ aliasStr ++ "\x27 not in \x27tool:alias\x27 format"))
     | some p =>
       if !(venv.toolDirExists p.1) then
         (false, some ("Tool \x27" ++ p.1 ++ "\x27 directory not found"))
       else if !((venv.toolAliasNames p.1).contains p.2) then
         (false, some ("Alias \x27" ++ p.2 ++ "\x27 not found in tool \x27" ++ p.1 ++ "\x27."))
       else
         match t.settings? with
         | some settings =>
           let cfg := venv.toolConfig p.1
           let accepts := if cfg.header_flag != "" then cfg.accepts_stdin else true
           if settingsTruthy settings "pipe_input" false && !accepts then
             (false, some ("Tool \x27" ++ p.1 ++
               "\x27 does not accept stdin, but pipe_input is true"))
           else
             (match checkBoolSettings "" settings with
              | some m => (false, some m)
              | none => (true, none))
         | none => (true, none))
  | none =>
  match t.command? with
  | some cmd =>
    (match checkCmdVars varValues (findVars cmd) with
     | some m => (false, some m)
     | none =>
       match t.settings? with
       | some settings =>
         (match checkBoolSettings " in command task" settings with
          | some m => (false, some m)
          | none => (true, none))
       | none => (true, none))
  | none =>
  match t.flow? with
  | some fname =>
    (match venv.flows fname with
     | none => (false, some ("Referenced flow \x27" ++ fname ++ "\x27 not found"))
     | some _ =>
       match checkChildVars varValues t.varMap with
       | some m => (false, some m)
       | none => (true, none))
  | none => (false, some "Task must have either \x27alias\x27 or \x27command\x27 key.")

/-- Lines 646-649: validate each task of a stage, wrapping the first failure. -/
def validateTasksIn (venv : VEnv) (varValues : List (String × String))
    (stageName : String) : List Task → Option String
  | [] => none
  | t :: ts =>
    match validateTask venv t varValues with
    | (false, m) => some ("In stage \x27" ++ stageName ++ "\x27: " ++ m.getD "")
    | (true, _) => validateTasksIn venv varValues stageName ts

/-- The per-stage loop of `validate_flow` (lines 626-649). -/
def validateStages (venv : VEnv) (varValues : List (String × String))
    (stages : List (String × StageDef)) : List String → Bool × Option String
  | [] => (true, none)
  | n :: ns =>
    match stages.lookup n with
    | none => (false, some ("Stage \x27" ++ n ++ "\x27 not defined in stages"))
    | some sd =>
      if sd.tasks.isEmpty then
        (false, some ("Stage \x27" ++ n ++ "\x27 has no \x27tasks\x27 defined."))
      else if sd.parallel && sd.distribution == "chained" then
        (false, some ("Stage \x27" ++ n ++
          "\x27 is parallel with distribution=\x27chained\x27 which is not allowed."))
      else
        match validateTasksIn venv varValues n sd.tasks with
        | some m => (false, some m)
        | none => validateStages venv varValues stages ns

/-- `validate_flow` (source lines 616-651). -/
def validateFlow (venv : VEnv) (fd : FlowDef) (varValues : List (String × String)) :
    Bool × Option String :=
  if fd.stages.isEmpty then (false, some "No stages defined in flow")
  else if fd.flow_order.isEmpty then (false, some "No flow order defined")
  else validateStages venv varValues fd.stages fd.flow_order

/-! ### The engine (`run_flow_internal`, source lines 60-264) -/

/-- The environment the engine runs against: flow resolution and the two
subprocess-running helpers.  `run_alias_async`/`run_command_async` spawn
processes; each is modelled as an oracle that either returns its result dict
or raises (`.error`) — both helpers can raise when awaited (e.g. the
`KeyError` of line 661 or a `TypeError` from line 769, both of which sit
before any `try` block), and their subprocess phase converts failures to
result dicts itself.  `taskRepr` abstracts Python's `str(task)` used as the
`tool` label when a gathered broadcast task raised (line 188). -/
structure Env where
  flows : String → Option FlowDef
  execAlias : String → String → Option String → List (String × String) → Except String Res
  execCommand : String → Option String → List (String × String) → Except String Res
  taskRepr : Task → String

/-- Lines 245-249: the next running value after a chained task: the trimmed
output exactly when the task result is successful, its output is truthy, and
the task's settings keep `pipe_output`; otherwise `None`. -/
def chainNext (t : Task) (r : Res) : Option String :=
  match r.output with
  | some s =>
    if r.success && (s != "") && getSetting t "pipe_output" true then some (pyStrip s)
    else none
  | none => none

/-- The chained branch's per-task dispatch (lines 210-240), with the
recursive nested-flow call abstracted as `recur`.  `none` means the task has
no recognized kind, so the loop body assigns nothing to `result`. -/
def chainedTaskRun (env : Env)
    (recur : FlowDef → List (String × String) → Option String → Except String Res)
    (varValues : List (String × String)) (t : Task) (inp : Option String) :
    Option (Except String Res) :=
  match t.flow? with
  | some fname =>
    (match env.flows fname with
     | some child => some (recur child (childVars varValues t.varMap) inp)
     | none =>
       some (.ok (Res.task (some "") false ("flow:" ++ fname ++ " (not found)"))))
  | none =>
  match t.alias? with
  | some a =>
    (match splitColon a with
     | some p => some (env.execAlias p.1 p.2 inp varValues)
     | none => some (.error "ValueError: not enough values to unpack"))
  | none =>
  match t.command? with
  | some c => some (env.execCommand c inp varValues)
  | none => none

/-- The chained loop (lines 197-251).  `cur` is `current_input`; `last`
models the Python local `result`, which survives loop iterations: a task
with no recognized kind re-appends the previous result (or raises
`UnboundLocalError` on the first task).  The returned pair is
(`stage_tools_results`, `current_stage_output`). -/
def runChainedStage (runT : Task → Option String → Option (Except String Res)) :
    List Task → Option String → Option Res → Except String (List Res × Option String)
  | [], cur, _ => .ok ([], cur)
  | t :: ts, cur, last =>
    let inp := if getSetting t "pipe_input" true then cur else none
    match runT t inp with
    | some (.error e) => .error e
    | some (.ok r) =>
      (match runChainedStage runT ts (chainNext t r) (some r) with
       | .error e => .error e
       | .ok (rs, out) => .ok (r :: rs, out))
    | none =>
      match last with
      | none => .error "UnboundLocalError: local variable referenced before assignment"
      | some r =>
        (match runChainedStage runT ts (chainNext t r) (some r) with
         | .error e => .error e
         | .ok (rs, out) => .ok (r :: rs, out))

/-- What the broadcast branch's per-task pass (lines 141-180) contributes:
either no coroutine at all (unrecognized kind: `task_ids` gets an entry but
`coros` does not), an exception raised while building the coroutines (the
2-unpacking of line 169), or a scheduled coroutine.  A coroutine's value is
`none` for the `asyncio.sleep(0)` scheduled when a child flow fails to load
(line 166), otherwise the awaited result dict; `.error` is an exception
captured by `gather(..., return_exceptions=True)`. -/
inductive BStep where
  | skip
  | raiseB (e : String)
  | coro (c : Except String (Option Res))

/-- The broadcast branch's per-task dispatch (lines 149-180), including the
per-task input decision of line 150. -/
def broadcastTaskStep (env : Env)
    (recur : FlowDef → List (String × String) → Option String → Except String Res)
    (varValues : List (String × String)) (prev : Option String) (t : Task) : BStep :=
  let binput := if getSetting t "pipe_input" true then prev else none
  match t.flow? with
  | some fname =>
    (match env.flows fname with
     | some child =>
       .coro (match recur child (childVars varValues t.varMap) binput with
              | .ok fr => .ok (some fr)
              | .error e => .error e)
     | none => .coro (.ok none))
  | none =>
  match t.alias? with
  | some a =>
    (match splitColon a with
     | some p => .coro ((env.execAlias p.1 p.2 binput varValues).map some)
     | none => .raiseB "ValueError: not enough values to unpack")
  | none =>
  match t.command? with
  | some c => .coro ((env.execCommand c binput varValues).map some)
  | none => .skip

/-- Build the `coros` list (the for-loop of lines 141-180): a `raiseB`
aborts the whole stage before anything is gathered. -/
def buildCoros (mk : Task → BStep) : List Task → Except String (List (Except String (Option Res)))
  | [] => .ok []
  | t :: ts =>
    match mk t with
    | .skip => buildCoros mk ts
    | .raiseB e => .error e
    | .coro c => (buildCoros mk ts).map (fun l => c :: l)

/-- The result-collection loop over `zip(task_ids, results)` (lines 184-193),
returning (`stage_tools_results`, `combined_outputs`).  A `None` result (from
the `sleep(0)` placeholder) makes `result['success']` raise `TypeError`,
which propagates out of the engine. -/
def processGather (taskRepr : Task → String) :
    List (Task × Except String (Option Res)) → Except String (List Res × List String)
  | [] => .ok ([], [])
  | (t, c) :: rest =>
    match c with
    | .error _ =>
      (match processGather taskRepr rest with
       | .error e2 => .error e2
       | .ok (rs, cs) => .ok (Res.task (some "") false (taskRepr t) :: rs, cs))
    | .ok none => .error "TypeError: NoneType object is not subscriptable"
    | .ok (some r) =>
      (match processGather taskRepr rest with
       | .error e2 => .error e2
       | .ok (rs, cs) =>
         .ok (r :: rs,
              if r.success && optTruthy r.output then pyStrip (r.output.getD "") :: cs else cs))

/-- The broadcast branch (lines 137-195).  `zip` pairs every task (all of
which got a `task_id`) with the gathered results (only recognized tasks got
a coroutine), truncating at the shorter list exactly as `zip` does. -/
def runBroadcastStage (taskRepr : Task → String) (mk : Task → BStep) (tasks : List Task) :
    Except String (List Res × Option String) :=
  match buildCoros mk tasks with
  | .error e => .error e
  | .ok coros =>
    match processGather taskRepr (tasks.zip coros) with
    | .error e => .error e
    | .ok (rs, combined) =>
      .ok (rs, if combined.isEmpty then none else some (String.intercalate "\n" combined))

/-- One stage (lines 137-251): the branch dispatch on
(`parallel`, `distribution`).  A stage matching neither branch — notably the
default `parallel=False, distribution='broadcast'` — runs no task at all and
leaves `current_stage_output = None` (line 118). -/
def runStage (env : Env)
    (recur : FlowDef → List (String × String) → Option String → Except String Res)
    (varValues : List (String × String)) (sd : StageDef) (prev : Option String) :
    Except String (List Res × Option String) :=
  if sd.parallel && sd.distribution == "broadcast" then
    runBroadcastStage env.taskRepr (broadcastTaskStep env recur varValues prev) sd.tasks
  else if sd.distribution == "chained" && !sd.parallel then
    runChainedStage (chainedTaskRun env recur varValues) sd.tasks prev none
  else
    .ok ([], none)

/-- The stage loop (lines 110-258): thread the pipeline value, accumulate
`(stage_name, stage_tools_results)` in order. -/
def runStagesGo (runS : String → Option String → Except String (List Res × Option String)) :
    List String → Option String → Except String (List (String × List Res) × Option String)
  | [], prev => .ok ([], prev)
  | n :: ns, prev =>
    match runS n prev with
    | .error e => .error e
    | .ok (rs, out) =>
      match runStagesGo runS ns out with
      | .error e => .error e
      | .ok (rest, fin) => .ok ((n, rs) :: rest, fin)

/-- `run_flow_internal` (lines 60-264).  Recursion is by fuel; the source
recursion is bounded because every nested call increments `flow_depth` and
line 75 bails out at `flow_depth > 5`, so any fuel above the cap behaves
like the source (out-of-fuel is an unreachable `.error` sentinel). -/
def runFlow (env : Env) : Nat → FlowDef → List (String × String) → Option String → Nat →
    Except String Res
  | fuel, fd, varValues, input, flow_depth =>
    if flow_depth > 5 then .ok Res.exceeded
    else
      match fuel with
      | 0 => .error "out of fuel"
      | fuel' + 1 =>
        match
          runStagesGo
            (fun n prev =>
              runStage env
                (fun cf cv ci => runFlow env fuel' cf cv ci (flow_depth + 1))
                varValues ((fd.stages.lookup n).getD {}) prev)
            fd.flow_order input
        with
        | .error e => .error e
        | .ok (srs, out) => .ok (Res.flowR out true srs)

/-- The validate-then-run gate of `flow_run_command` (lines 921-947): the
engine is entered, at depth 0 with no input, only when validation passed;
`none` means no task was executed and no subprocess spawned. -/
def flowRunGate (venv : VEnv) (env : Env) (fuel : Nat) (fd : FlowDef)
    (varValues : List (String × String)) : Option (Except String Res) :=
  if (validateFlow venv fd varValues).1 then some (runFlow env fuel fd varValues none 0)
  else none

/-! ### Structured templates

`str.replace` can re-create placeholder text (a bound value containing
`\x7b\x7b...\x7d\x7d`, or braces spliced together at an occurrence boundary), so facts
about substitution are proved for templates that are an alternation of
brace-free literal chunks and placeholders with brace-free names, with
brace-free replacement values. -/

/-- One template segment: a literal chunk or a `\x7b\x7bname\x7d\x7d` placeholder. -/
inductive Seg where
  | lit (s : List Char)
  | ph (n : List Char)
deriving DecidableEq

/-- A segment is well formed when its characters are brace-free. -/
def braceFree (l : List Char) : Bool :=
  l.all (fun c => c != '{' && c != '}')

def segWf : Seg → Bool
  | .lit s => braceFree s
  | .ph n => braceFree n

def renderSegs : List Seg → List Char
  | [] => []
  | .lit s :: r => s ++ renderSegs r
  | .ph m :: r => placeholderChars m ++ renderSegs r

/-- Replacing the placeholder named `n` by the literal `v`, on one segment. -/
def substSeg (n v : List Char) : Seg → Seg
  | .ph m => if m = n then .lit v else .ph m
  | .lit s => .lit s

/-- The first binding for the (char-level) name `m`, in binding order. -/
def lookupCh : List (String × String) → List Char → Option String
  | [], _ => none
  | p :: rest, m => if p.1.data = m then some p.2 else lookupCh rest m

/-- Applying every binding, in order, to one segment. -/
def resolvePairs (ps : List (String × String)) (sg : Seg) : Seg :=
  ps.foldl (fun x p => substSeg p.1.data p.2.data x) sg

/-- What one broadcast task contributes to `combined_outputs`, for an
arbitrary per-task step: its trimmed output when its coroutine returned a
successful result dict with truthy output, nothing otherwise. -/
def bStepContribution (mk : Task → BStep) (t : Task) : Option String :=
  match mk t with
  | .coro (.ok (some r)) =>
    if r.success && optTruthy r.output then some (pyStrip (r.output.getD "")) else none
  | _ => none

/-- What one broadcast task contributes to `combined_outputs` under the
engine's own dispatch. -/
def broadcastContribution (env : Env)
    (recur : FlowDef → List (String × String) → Option String → Except String Res)
    (varValues : List (String × String)) (prev : Option String) (t : Task) : Option String :=
  bStepContribution (broadcastTaskStep env recur varValues prev) t

/-- The `combined_outputs` part of the gather loop, as a function of the
gathered values alone (the loop reads the paired task only for the `tool`
label of converted exceptions, never for `combined_outputs`). -/
def gatherCombined : List (Except String (Option Res)) → Except String (List String)
  | [] => .ok []
  | c :: rest =>
    match c with
    | .error _ => gatherCombined rest
    | .ok none => .error "TypeError: NoneType object is not subscriptable"
    | .ok (some r) =>
      (match gatherCombined rest with
       | .error e2 => .error e2
       | .ok cs =>
         .ok (if r.success && optTruthy r.output then pyStrip (r.output.getD "") :: cs else cs))

/-- The running value before task `i + 1` (equivalently, after task `i`) of
a chained stage, as a function of the declared tasks and the recorded
results alone. -/
def chainStateAfter (tasks : List Task) (rs : List Res) (prev : Option String) : Nat → Option String
  | 0 => prev
  | i + 1 =>
    match tasks[i]?, rs[i]? with
    | some t, some r => chainNext t r
    | _, _ => none

/-- The input actually handed to task `i` of a chained stage: the running
value, gated by the task's own `pipe_input` setting. -/
def chainInputAt (tasks : List Task) (rs : List Res) (prev : Option String) (i : Nat) :
    Option String :=
  match tasks[i]? with
  | some t => if getSetting t "pipe_input" true then chainStateAfter tasks rs prev i else none
  | none => none

/-! ### Concrete fixtures used by counterexamples and witnesses -/

/-- An environment whose command oracle echoes its command and input (with a
trailing blank, to make the engine's trimming observable). -/
def echoEnv : Env where
  flows := fun _ => none
  execAlias := fun _ _ _ _ => .error "unused"
  execCommand := fun c inp _ =>
    .ok (Res.task (some (c ++ "-" ++ (inp.getD "N") ++ " ")) true c)
  taskRepr := fun _ => "T"

def unusedRecur : FlowDef → List (String × String) → Option String → Except String Res :=
  fun _ _ _ => .error "unused"

def c1tasks : List Task := [{ command? := some "c1" }, { command? := some "c2" }]

def c1rs : List Res := [Res.task (some "c1-N ") true "c1", Res.task (some "c2-c1-N ") true "c2"]

/-- A broadcast fixture: two succeeding tasks and one failing one, declared
in that order. -/
def c2env : Env where
  flows := fun _ => none
  execAlias := fun _ _ _ _ => .error "unused"
  execCommand := fun c _ _ =>
    if c = "F" then .ok (Res.task (some "") false "f")
    else .ok (Res.task (some (c ++ " ")) true c)
  taskRepr := fun _ => "T"

def c2tasks : List Task :=
  [{ command? := some "A" }, { command? := some "B" }, { command? := some "F" }]

def c2rs : List Res :=
  [Res.task (some "A ") true "A", Res.task (some "B ") true "B", Res.task (some "") false "f"]

/-- The self-invoking flow of spec scenario 3: one chained stage whose only
task runs the flow `f` — which resolves to this very flow. -/
def c3flow : FlowDef where
  stages := [("s", { tasks := [{ flow? := some "f" }], distribution := "chained" })]
  flow_order := ["s"]

def c3env : Env where
  flows := fun n => if n = "f" then some c3flow else none
  execAlias := fun _ _ _ _ => .error "unused"
  execCommand := fun _ _ _ => .error "unused"
  taskRepr := fun _ => "T"

def c3r5 : Res := Res.flowR none true [("s", [Res.exceeded])]
def c3r4 : Res := Res.flowR none true [("s", [c3r5])]
def c3r3 : Res := Res.flowR none true [("s", [c3r4])]
def c3r2 : Res := Res.flowR none true [("s", [c3r3])]
def c3r1 : Res := Res.flowR none true [("s", [c3r2])]
def c3top : Res := Res.flowR none true [("s", [c3r1])]

/-- A chained stage whose first task is an alias without a colon: the
engine's own 2-unpacking (source line 229) raises `ValueError` while the
task runs; a second task follows to witness that it is never reached. -/
def c4flow : FlowDef where
  stages :=
    [("s", { tasks := [{ alias? := some "noColonAlias" }, { command? := some "c" }],
             distribution := "chained" })]
  flow_order := ["s"]

def c4env : Env where
  flows := fun _ => none
  execAlias := fun _ _ _ _ => .error "unused"
  execCommand := fun _ _ _ => .ok (Res.task (some "x") true "c")
  taskRepr := fun _ => "T"

/-- A catalog in which only the tool `t` with the alias `a` exists. -/
def c8venv : VEnv where
  toolDirExists := fun n => n == "t"
  toolConfig := fun _ => {}
  toolAliasNames := fun n => if n == "t" then ["a"] else []
  flows := fun _ => none

/-- A task record with two recognized kinds: a resolvable alias and a
command whose placeholder has no binding. -/
def c8task : Task :=
  { alias? := some "t:a", command? := some (String.mk ['{', '{', 'x', '}', '}']) }

/-- A flow whose `stages` map contains a `parallel=true, distribution=chained`
stage that the `flow` list never references. -/
def c5flowCex : FlowDef where
  stages :=
    [("good", { tasks := [{ command? := some "c" }] }),
     ("bad", { tasks := [{ command? := some "c" }], parallel := true,
               distribution := "chained" })]
  flow_order := ["good"]

/-- The same bad stage, referenced by the `flow` list. -/
def c5flowRef : FlowDef where
  stages :=
    [("bad", { tasks := [{ command? := some "c" }], parallel := true,
               distribution := "chained" })]
  flow_order := ["bad"]

/-- A catalog with no tools and no flows (command tasks without placeholders
validate against it). -/
def emptyVenv : VEnv where
  toolDirExists := fun _ => false
  toolConfig := fun _ => {}
  toolAliasNames := fun _ => []
  flows := fun _ => none

/-- An engine whose command oracle reports whether it received input. -/
def c10env : Env where
  flows := fun _ => none
  execAlias := fun _ _ _ _ => .error "unused"
  execCommand := fun _ inp _ =>
    .ok (Res.task (some (if inp.isNone then "NOINPUT" else "GOT")) true "cmd")
  taskRepr := fun _ => "T"

/-- Stage `s1` has the default `parallel=false, distribution=broadcast`
combination; the chained stage `s2` then shows what input it receives. -/
def c10flow : FlowDef where
  stages :=
    [("s1", { tasks := [{ command? := some "c0" }] }),
     ("s2", { tasks := [{ command? := some "c1" }], distribution := "chained" })]
  flow_order := ["s1", "s2"]

/-- A flow with a single chained command task whose process exits non-zero:
the oracle returns the failed result dict built at source line 820. -/
def c6env : Env where
  flows := fun _ => none
  execAlias := fun _ _ _ _ => .error "unused"
  execCommand := fun _ _ _ => .ok (Res.task (some "") false "command:c")
  taskRepr := fun _ => "T"

def c6flow : FlowDef where
  stages := [("s", { tasks := [{ command? := some "c" }], distribution := "chained" })]
  flow_order := ["s"]

/-- The non-idempotence input for ANSI stripping: stripping removes the
inner `ESC [ m` and thereby glues `ESC [ 1` to the final `m`, forming a new
escape sequence. -/
def ansiCex : String := String.mk ['\x1b', '[', '1', '\x1b', '[', 'm', 'm']

/-- Substitution counterexample: the value bound to `b` is itself the
placeholder of the bound variable `a`. -/
def c7pairs : List (String × String) := [("a", "u"), ("b", String.mk ['{', '{', 'a', '}', '}'])]

def c7tmpl : String := String.mk ['{', '{', 'b', '}', '}']

def c7segs : List Seg := [Seg.lit ['c', ' '], Seg.ph ['x'], Seg.lit [' '], Seg.ph ['y']]

def c7goodPairs : List (String × String) := [("x", "1")]

/-- A single complete escape sequence followed by text: strips to `"x"`. -/
def ansiSeq1 : String := String.mk ['\x1b', '[', 'm', 'x']

/-! ## Claim theorems -/

/-- `stripGo` is the identity on ESC-free input, for any fuel. -/
theorem stripGo_no_esc : ∀ (fuel : Nat) (l : List Char), '\x1b' ∉ l → stripGo fuel l = l
  | 0, _, _ => rfl
  | _ + 1, [], _ => rfl
  | fuel + 1, c :: rest, h => by
    have hc : ¬(c = '\x1b') := fun hc => h (hc ▸ List.mem_cons_self c rest)
    have hr : '\x1b' ∉ rest := fun hm => h (List.mem_cons_of_mem c hm)
    simp [stripGo, hc, stripGo_no_esc fuel rest hr]

theorem stripAnsiChars_no_esc (l : List Char) (h : '\x1b' ∉ l) : stripAnsiChars l = l :=
  stripGo_no_esc _ l h

/-- Claim C9 is false as stated: on `ansiCex` a second strip removes a
sequence formed by the first removal. -/
theorem claim_C9_counterexample :
    strip_ansi_codes (strip_ansi_codes ansiCex) ≠ strip_ansi_codes ansiCex ∧
    strip_ansi_codes ansiCex = String.mk ['\x1b', '[', '1', 'm'] ∧
    strip_ansi_codes (strip_ansi_codes ansiCex) = "" := by
  refine ⟨?_, rfl, rfl⟩
  decide

/-- Claim C9 (amended): stripping is the identity on strings containing no
ESC character, and hence idempotent on every string whose stripped form
contains no ESC; it is not idempotent in general, because a removal can
juxtapose a remaining ESC with following characters to form a new escape
sequence. -/
theorem claim_C9_amended (s : String) :
    ('\x1b' ∉ s.data → strip_ansi_codes s = s) ∧
    ('\x1b' ∉ (strip_ansi_codes s).data →
      strip_ansi_codes (strip_ansi_codes s) = strip_ansi_codes s) := by
  constructor
  · intro h
    show String.mk (stripAnsiChars s.data) = s
    rw [stripAnsiChars_no_esc s.data h]
  · intro h
    show String.mk (stripAnsiChars (strip_ansi_codes s).data) = strip_ansi_codes s
    rw [stripAnsiChars_no_esc _ h]

theorem claim_C9_witness :
    ('\x1b' ∉ ("abc" : String).data ∧ strip_ansi_codes "abc" = "abc") ∧
    ('\x1b' ∉ (strip_ansi_codes ansiSeq1).data ∧
      strip_ansi_codes (strip_ansi_codes ansiSeq1) = strip_ansi_codes ansiSeq1) :=
  ⟨⟨by decide, (claim_C9_amended "abc").1 (by decide)⟩,
   ⟨by decide, (claim_C9_amended ansiSeq1).2 (by decide)⟩⟩

/-- Claim C3: any call with `flow_depth > 5` returns the synthetic failed
dict (`success=False`, output the empty string) without raising; on the
self-invoking flow `c3flow`, the sixth-level nested call (depth 6) is that
failed result, the depth-5 call records it as a failed task in its stage
results, and the top-level call still returns `success=True`, with the whole
chain of nested records embedded. -/
theorem claim_C3 :
    (∀ (env : Env) (fuel : Nat) (fd : FlowDef) (varValues : List (String × String))
       (input : Option String) (depth : Nat), depth > 5 →
       runFlow env fuel fd varValues input depth = .ok Res.exceeded) ∧
    Res.exceeded.success = false ∧ Res.exceeded.output = some "" ∧
    runFlow c3env 10 c3flow [] none 6 = .ok Res.exceeded ∧
    runFlow c3env 10 c3flow [] none 5 = .ok c3r5 ∧
    c3r5.stageResults = [("s", [Res.exceeded])] ∧
    runFlow c3env 10 c3flow [] none 0 = .ok c3top ∧
    c3top.success = true := by
  refine ⟨?_, rfl, rfl, rfl, rfl, rfl, rfl, rfl⟩
  intro env fuel fd varValues input depth h
  unfold runFlow
  rw [if_pos h]

theorem claim_C3_witness : runFlow c3env 0 c3flow [] none 7 = .ok Res.exceeded :=
  claim_C3.1 c3env 0 c3flow [] none 7 (by decide)

/-- Claim C6: whenever the engine itself finishes a run started at an
admissible depth without an uncaught exception, the flow result has
`success=True` — independently of the contained task results; concretely, a
run whose only task failed (non-zero exit) still yields `success=True` with
the failed task recorded. -/
theorem claim_C6 :
    (∀ (env : Env) (fuel : Nat) (fd : FlowDef) (varValues : List (String × String))
       (input : Option String) (depth : Nat) (r : Res), depth ≤ 5 →
       runFlow env fuel fd varValues input depth = .ok r → r.success = true) ∧
    runFlow c6env 2 c6flow [] none 0 =
      .ok (Res.flowR none true [("s", [Res.task (some "") false "command:c"])]) := by
  constructor
  · intro env fuel fd varValues input depth r hd hok
    unfold runFlow at hok
    rw [if_neg (by omega)] at hok
    split at hok
    · exact absurd hok (by simp)
    · split at hok
      · exact absurd hok (by simp)
      · injection hok with h2
        rw [← h2]
        rfl
  · rfl

theorem claim_C6_witness :
    (Res.flowR none true [("s", [Res.task (some "") false "command:c"])]).success = true :=
  claim_C6.1 c6env 2 c6flow [] none 0 _ (by omega) claim_C6.2

/-- Claim C10: a stage with `parallel=false` and `distribution='broadcast'`
(the defaults) matches neither execution branch: no task runs, its result
list is empty and its output is `None`; yet such a stage passes validation,
and in `c10flow` the following chained stage observably receives no input. -/
theorem claim_C10 :
    (∀ (env : Env)
       (recur : FlowDef → List (String × String) → Option String → Except String Res)
       (varValues : List (String × String)) (sd : StageDef) (prev : Option String),
       sd.parallel = false → sd.distribution = "broadcast" →
       runStage env recur varValues sd prev = .ok ([], none)) ∧
    validateFlow emptyVenv c10flow [] = (true, none) ∧
    runFlow c10env 2 c10flow [] none 0 =
      .ok (Res.flowR (some "NOINPUT") true
        [("s1", []), ("s2", [Res.task (some "NOINPUT") true "cmd"])]) := by
  refine ⟨?_, rfl, rfl⟩
  intro env recur varValues sd prev h1 h2
  unfold runStage
  rw [h1, h2]
  simp

theorem claim_C10_witness :
    runStage c10env unusedRecur [] { tasks := [{ command? := some "zz" }] } (some "x") =
      .ok ([], none) :=
  claim_C10.1 c10env unusedRecur [] _ (some "x") rfl rfl

/-- Claim C4 is false on the code: in a chained stage there is no
task-boundary exception handler, so the `ValueError` raised while running
the first task of `c4flow` (an alias reference without a colon, source line
229) aborts the stage and the whole flow — the second task never runs and
`run_flow_internal` itself raises. -/
theorem claim_C4_counterexample :
    runFlow c4env 2 c4flow [] none 0 = .error "ValueError: not enough values to unpack" := by
  rfl

/-- Claim C4 (amended): in a broadcast stage an exception captured by
`gather(..., return_exceptions=True)` is converted into a failed task result
and the remaining gathered results are processed unchanged; in a chained
stage an exception raised by a task propagates and aborts the stage (and,
with it, the flow) — the remaining tasks of the stage are never run. -/
theorem claim_C4_amended :
    (∀ (tr : Task → String) (t : Task) (e : String)
       (rest : List (Task × Except String (Option Res))),
       processGather tr ((t, .error e) :: rest) =
         match processGather tr rest with
         | .error e2 => .error e2
         | .ok (rs, cs) => .ok (Res.task (some "") false (tr t) :: rs, cs)) ∧
    (∀ (runT : Task → Option String → Option (Except String Res)) (t : Task)
       (ts : List Task) (cur : Option String) (last : Option Res) (e : String),
       runT t (if getSetting t "pipe_input" true then cur else none) = some (.error e) →
       runChainedStage runT (t :: ts) cur last = .error e) := by
  constructor
  · intro tr t e rest
    rfl
  · intro runT t ts cur last e h
    simp [runChainedStage, h]

theorem claim_C4_witness :
    runChainedStage (chainedTaskRun c4env unusedRecur []) [{ alias? := some "noColonAlias" }]
      (some "x") none = .error "ValueError: not enough values to unpack" :=
  claim_C4_amended.2 _ _ _ _ _ _ rfl

/-- Claim C8 is false as stated: the record `c8task` carries two recognized
kinds (`alias` and `command`), and validation accepts it — the alias branch
wins and the command template with its unbound placeholder is never checked
(alone, that command is rejected). -/
theorem claim_C8_counterexample :
    validateTask c8venv c8task [] = (true, none) ∧
    c8task.alias?.isSome = true ∧ c8task.command?.isSome = true ∧
    validateTask c8venv { command? := c8task.command? } [] ≠ (true, none) := by
  refine ⟨rfl, rfl, rfl, ?_⟩
  decide

/-- Claim C8 (amended): a record with zero recognized kinds is rejected with
the source's message; when several kinds are present, validation is decided
by the first recognized kind in the order alias, command, flow — the other
kind keys are ignored entirely. -/
theorem claim_C8_amended :
    (∀ (venv : VEnv) (t : Task) (varValues : List (String × String)),
       t.alias? = none → t.command? = none → t.flow? = none →
       validateTask venv t varValues =
         (false, some "Task must have either \x27alias\x27 or \x27command\x27 key.")) ∧
    (∀ (venv : VEnv) (t : Task) (varValues : List (String × String)) (a : String),
       t.alias? = some a →
       validateTask venv t varValues =
         validateTask venv { t with command? := none, flow? := none } varValues) ∧
    (∀ (venv : VEnv) (t : Task) (varValues : List (String × String)) (c : String),
       t.alias? = none → t.command? = some c →
       validateTask venv t varValues = validateTask venv { t with flow? := none } varValues) := by
  refine ⟨?_, ?_, ?_⟩
  · intro venv t varValues h1 h2 h3
    unfold validateTask
    rw [h1, h2, h3]
  · intro venv t varValues a h
    unfold validateTask
    rw [h]
  · intro venv t varValues c h1 h2
    unfold validateTask
    rw [h1, h2]

theorem claim_C8_witness :
    validateTask c8venv { alias? := none, command? := none, flow? := none } [] =
      (false, some "Task must have either \x27alias\x27 or \x27command\x27 key.") ∧
    validateTask c8venv c8task [] =
      validateTask c8venv { c8task with command? := none, flow? := none } [] :=
  ⟨claim_C8_amended.1 c8venv _ [] rfl rfl rfl,
   claim_C8_amended.2.1 c8venv c8task [] "t:a" rfl⟩

/-- Any stage-loop iteration that reaches a referenced
`parallel=true, distribution='chained'` stage reports validation failure. -/
theorem validateStages_flags_bad (venv : VEnv) (varValues : List (String × String))
    (stages : List (String × StageDef)) (n : String) (sd : StageDef)
    (hsd : stages.lookup n = some sd) (hp : sd.parallel = true)
    (hd : sd.distribution = "chained") :
    ∀ names : List String, n ∈ names → (validateStages venv varValues stages names).1 = false := by
  intro names
  induction names with
  | nil => intro h; exact absurd h (List.not_mem_nil n)
  | cons m ms ih =>
    intro hmem
    by_cases hnm : n = m
    · subst hnm
      unfold validateStages
      rw [hsd]
      cases hte : sd.tasks.isEmpty
      · simp [hte, hp, hd]
      · simp [hte]
    · have hms : n ∈ ms := (List.mem_cons.mp hmem).resolve_left hnm
      unfold validateStages
      cases hl : stages.lookup m with
      | none => rfl
      | some sd' =>
        cases hte : sd'.tasks.isEmpty
        · simp only [hte]
          split
          · rfl
          · split
            · rfl
            · split
              · rfl
              · exact ih hms
        · simp [hte]

/-- Claim C5 is false as stated: `c5flowCex` contains a
`parallel=true, distribution='chained'` stage in its stage map, but that
stage is never referenced by the `flow` list, so validation succeeds and the
run gate executes the flow. -/
theorem claim_C5_counterexample :
    validateFlow emptyVenv c5flowCex [] = (true, none) ∧
    (∃ p ∈ c5flowCex.stages, p.2.parallel = true ∧ p.2.distribution = "chained") ∧
    (flowRunGate emptyVenv c10env 2 c5flowCex []).isSome = true := by
  refine ⟨rfl, ?_, rfl⟩
  decide

/-- Claim C5 (amended): for every flow whose `flow` list references a stage
declared `parallel=true, distribution='chained'`, validation fails and the
run gate executes nothing (so no task runs and no subprocess is spawned);
the check for this condition produces an error message naming the stage, as
on `c5flowRef` — though when another stage fails an earlier check, that
earlier error is the one reported. -/
theorem claim_C5_amended :
    (∀ (venv : VEnv) (envE : Env) (fuel : Nat) (fd : FlowDef)
       (varValues : List (String × String)) (n : String) (sd : StageDef),
       n ∈ fd.flow_order → fd.stages.lookup n = some sd →
       sd.parallel = true → sd.distribution = "chained" →
       (validateFlow venv fd varValues).1 = false ∧
       flowRunGate venv envE fuel fd varValues = none) ∧
    validateFlow emptyVenv c5flowRef [] =
      (false,
       some "Stage \x27bad\x27 is parallel with distribution=\x27chained\x27 which is not allowed.") := by
  constructor
  · intro venv envE fuel fd varValues n sd hmem hl hp hd
    have hv : (validateFlow venv fd varValues).1 = false := by
      unfold validateFlow
      cases hse : fd.stages.isEmpty
      · cases hfo : fd.flow_order.isEmpty
        · simp only [hse, hfo, Bool.false_eq_true, if_false]
          exact validateStages_flags_bad venv varValues fd.stages n sd hl hp hd fd.flow_order hmem
        · simp [hse, hfo]
      · simp [hse]
    refine ⟨hv, ?_⟩
    unfold flowRunGate
    rw [hv]
    simp
  · rfl

theorem claim_C5_witness :
    (validateFlow emptyVenv c5flowRef []).1 = false ∧
    flowRunGate emptyVenv c10env 2 c5flowRef [] = none :=
  claim_C5_amended.1 emptyVenv c10env 2 c5flowRef [] "bad"
    { tasks := [{ command? := some "c" }], parallel := true, distribution := "chained" }
    (by decide) rfl rfl rfl

/-- The engine's chained dispatch assigns a result to every recognized
task. -/
theorem chainedTaskRun_isSome (env : Env)
    (recur : FlowDef → List (String × String) → Option String → Except String Res)
    (varValues : List (String × String)) (t : Task) (inp : Option String)
    (h : recognizedTask t = true) :
    (chainedTaskRun env recur varValues t inp).isSome = true := by
  unfold chainedTaskRun
  cases hf : t.flow? with
  | some fname => cases hx : env.flows fname <;> simp [hx]
  | none =>
    cases ha : t.alias? with
    | some a => cases hs : splitColon a <;> simp [hs]
    | none =>
      cases hc : t.command? with
      | some c => simp
      | none =>
        unfold recognizedTask at h
        rw [hf, ha, hc] at h
        simp at h

theorem chainStateAfter_cons (t : Task) (ts : List Task) (r : Res) (rs : List Res)
    (prev : Option String) (i : Nat) :
    chainStateAfter (t :: ts) (r :: rs) prev (i + 1) =
      chainStateAfter ts rs (chainNext t r) i := by
  cases i with
  | zero => simp [chainStateAfter]
  | succ j => simp [chainStateAfter, List.getElem?_cons_succ]

theorem chainInputAt_cons (t : Task) (ts : List Task) (r : Res) (rs : List Res)
    (prev : Option String) (i : Nat) :
    chainInputAt (t :: ts) (r :: rs) prev (i + 1) = chainInputAt ts rs (chainNext t r) i := by
  unfold chainInputAt
  rw [List.getElem?_cons_succ, chainStateAfter_cons]

/-- The accumulated behaviour of the chained loop: when it completes without
an exception and every task got a result, the recorded results align with
the declared tasks, every task received exactly the gated running value, and
the stage output is the final running value. -/
theorem runChained_spec (runT : Task → Option String → Option (Except String Res)) :
    ∀ (tasks : List Task) (prev : Option String) (last : Option Res) (rs : List Res)
      (out : Option String),
      runChainedStage runT tasks prev last = .ok (rs, out) →
      (∀ t ∈ tasks, ∀ inp, (runT t inp).isSome = true) →
      rs.length = tasks.length ∧
      out = chainStateAfter tasks rs prev tasks.length ∧
      (∀ i (hi : i < tasks.length) (hj : i < rs.length),
        runT (tasks.get ⟨i, hi⟩) (chainInputAt tasks rs prev i) =
          some (.ok (rs.get ⟨i, hj⟩))) := by
  intro tasks
  induction tasks with
  | nil =>
    intro prev last rs out hok _
    simp only [runChainedStage, Except.ok.injEq, Prod.mk.injEq] at hok
    obtain ⟨h1, h2⟩ := hok
    subst h1
    subst h2
    refine ⟨rfl, rfl, ?_⟩
    intro i hi hj
    exact absurd hi (by simp)
  | cons t ts ih =>
    intro prev last rs out hok hsome
    have hS := hsome t (List.mem_cons_self t ts)
    cases hr : runT t (if getSetting t "pipe_input" true then prev else none) with
    | none =>
      have hx := hS (if getSetting t "pipe_input" true then prev else none)
      rw [hr] at hx
      simp at hx
    | some ex =>
      cases ex with
      | error e => simp [runChainedStage, hr] at hok
      | ok r =>
        cases hrec2 : runChainedStage runT ts (chainNext t r) (some r) with
        | error e => simp [runChainedStage, hr, hrec2] at hok
        | ok p =>
          obtain ⟨rs', out'⟩ := p
          simp only [runChainedStage, hr, hrec2, Except.ok.injEq, Prod.mk.injEq] at hok
          obtain ⟨h1, h2⟩ := hok
          subst h1
          subst h2
          obtain ⟨ihl, iho, ihp⟩ := ih (chainNext t r) (some r) rs' out' hrec2
            (fun u hu inp => hsome u (List.mem_cons_of_mem t hu) inp)
          refine ⟨by simp [ihl], ?_, ?_⟩
          · simp only [List.length_cons, chainStateAfter_cons]
            exact iho
          · intro i hi hj
            cases i with
            | zero => simpa [chainInputAt, chainStateAfter] using hr
            | succ j =>
              have hj1 : j < ts.length := by simpa using hi
              have hj2 : j < rs'.length := by simpa using hj
              have hx := ihp j hj1 hj2
              rw [chainInputAt_cons]
              simpa using hx

/-- Claim C1: for a chained stage run by the engine's own dispatch that
completes without an exception and whose tasks are all recognized, the
results align one-to-one with the declared tasks; every task receives the
running value gated by its own `pipe_input` setting; the running value after
task `i` is the trimmed output of task `i` exactly when task `i` succeeded
with truthy output and keeps `pipe_output`, and is `None` otherwise —
independently of anything earlier tasks produced; and the stage output is
the running value after the last task. -/
theorem claim_C1 (env : Env)
    (recur : FlowDef → List (String × String) → Option String → Except String Res)
    (varValues : List (String × String)) (tasks : List Task) (prev : Option String)
    (rs : List Res) (out : Option String)
    (hok : runChainedStage (chainedTaskRun env recur varValues) tasks prev none = .ok (rs, out))
    (hrec : ∀ t ∈ tasks, recognizedTask t = true) :
    rs.length = tasks.length ∧
    (∀ i (hi : i < tasks.length) (hj : i < rs.length),
      chainedTaskRun env recur varValues (tasks.get ⟨i, hi⟩) (chainInputAt tasks rs prev i) =
        some (.ok (rs.get ⟨i, hj⟩))) ∧
    (∀ i (hi : i < tasks.length) (hj : i < rs.length),
      chainStateAfter tasks rs prev (i + 1) =
        (match (rs.get ⟨i, hj⟩).output with
         | some s =>
           if (rs.get ⟨i, hj⟩).success && (s != "") &&
               getSetting (tasks.get ⟨i, hi⟩) "pipe_output" true then some (pyStrip s)
           else none
         | none => none)) ∧
    out = chainStateAfter tasks rs prev tasks.length := by
  obtain ⟨h1, h2, h3⟩ :=
    runChained_spec (chainedTaskRun env recur varValues) tasks prev none rs out hok
      (fun t ht inp => chainedTaskRun_isSome env recur varValues t inp (hrec t ht))
  refine ⟨h1, h3, ?_, h2⟩
  intro i hi hj
  have ht : tasks[i]? = some (tasks.get ⟨i, hi⟩) := by
    rw [List.getElem?_eq_getElem hi]
    rfl
  have hrr : rs[i]? = some (rs.get ⟨i, hj⟩) := by
    rw [List.getElem?_eq_getElem hj]
    rfl
  simp only [chainStateAfter, ht, hrr]
  rfl

theorem claim_C1_witness :
    c1rs.length = c1tasks.length ∧
    (some "c2-c1-N" : Option String) = chainStateAfter c1tasks c1rs none c1tasks.length := by
  have h := claim_C1 echoEnv unusedRecur [] c1tasks none c1rs (some "c2-c1-N") rfl (by decide)
  exact ⟨h.1, h.2.2.2⟩

/-- The `combined_outputs` built by the gather loop depend only on the
gathered values, not on the paired tasks. -/
theorem processGather_combined (tr : Task → String) :
    ∀ (pairs : List (Task × Except String (Option Res))) (rs : List Res) (cs : List String),
      processGather tr pairs = .ok (rs, cs) → gatherCombined (pairs.map Prod.snd) = .ok cs := by
  intro pairs
  induction pairs with
  | nil =>
    intro rs cs hok
    simp only [processGather, Except.ok.injEq, Prod.mk.injEq] at hok
    rw [← hok.2]
    rfl
  | cons p rest ih =>
    obtain ⟨t, c⟩ := p
    intro rs cs hok
    simp only [processGather] at hok
    cases c with
    | error e =>
      cases hrest : processGather tr rest with
      | error e2 => rw [hrest] at hok; simp at hok
      | ok q =>
        obtain ⟨rs', cs'⟩ := q
        rw [hrest] at hok
        simp only [Except.ok.injEq, Prod.mk.injEq] at hok
        simp only [List.map_cons, gatherCombined]
        rw [← hok.2]
        exact ih rs' cs' hrest
    | ok o =>
      cases o with
      | none => simp at hok
      | some r =>
        cases hrest : processGather tr rest with
        | error e2 => rw [hrest] at hok; simp at hok
        | ok q =>
          obtain ⟨rs', cs'⟩ := q
          rw [hrest] at hok
          simp only [Except.ok.injEq, Prod.mk.injEq] at hok
          simp only [List.map_cons, gatherCombined]
          rw [ih rs' cs' hrest, ← hok.2]

theorem processGather_length (tr : Task → String) :
    ∀ (pairs : List (Task × Except String (Option Res))) (rs : List Res) (cs : List String),
      processGather tr pairs = .ok (rs, cs) → rs.length = pairs.length := by
  intro pairs
  induction pairs with
  | nil =>
    intro rs cs hok
    simp only [processGather, Except.ok.injEq, Prod.mk.injEq] at hok
    rw [← hok.1]
    rfl
  | cons p rest ih =>
    obtain ⟨t, c⟩ := p
    intro rs cs hok
    simp only [processGather] at hok
    cases c with
    | error e =>
      cases hrest : processGather tr rest with
      | error e2 => rw [hrest] at hok; simp at hok
      | ok q =>
        obtain ⟨rs', cs'⟩ := q
        rw [hrest] at hok
        simp only [Except.ok.injEq, Prod.mk.injEq] at hok
        rw [← hok.1]
        simp [ih rs' cs' hrest]
    | ok o =>
      cases o with
      | none => simp at hok
      | some r =>
        cases hrest : processGather tr rest with
        | error e2 => rw [hrest] at hok; simp at hok
        | ok q =>
          obtain ⟨rs', cs'⟩ := q
          rw [hrest] at hok
          simp only [Except.ok.injEq, Prod.mk.injEq] at hok
          rw [← hok.1]
          simp [ih rs' cs' hrest]

theorem buildCoros_length (mk : Task → BStep) :
    ∀ (tasks : List Task) (coros : List (Except String (Option Res))),
      buildCoros mk tasks = .ok coros → coros.length ≤ tasks.length := by
  intro tasks
  induction tasks with
  | nil =>
    intro coros hok
    simp only [buildCoros, Except.ok.injEq] at hok
    simp [← hok]
  | cons t ts ih =>
    intro coros hok
    cases hmk : mk t with
    | skip =>
      simp only [buildCoros, hmk] at hok
      exact Nat.le_succ_of_le (ih coros hok)
    | raiseB e => simp [buildCoros, hmk] at hok
    | coro c =>
      cases hts : buildCoros mk ts with
      | error e => simp [buildCoros, hmk, hts, Except.map] at hok
      | ok l =>
        simp only [buildCoros, hmk, hts, Except.map, Except.ok.injEq] at hok
        rw [← hok]
        simpa using ih l hts

theorem buildCoros_length_eq (mk : Task → BStep) :
    ∀ (tasks : List Task) (coros : List (Except String (Option Res))),
      buildCoros mk tasks = .ok coros → (∀ t ∈ tasks, mk t ≠ .skip) →
      coros.length = tasks.length := by
  intro tasks
  induction tasks with
  | nil =>
    intro coros hok _
    simp only [buildCoros, Except.ok.injEq] at hok
    simp [← hok]
  | cons t ts ih =>
    intro coros hok hns
    cases hmk : mk t with
    | skip => exact absurd hmk (hns t (List.mem_cons_self t ts))
    | raiseB e => simp [buildCoros, hmk] at hok
    | coro c =>
      cases hts : buildCoros mk ts with
      | error e => simp [buildCoros, hmk, hts, Except.map] at hok
      | ok l =>
        simp only [buildCoros, hmk, hts, Except.map, Except.ok.injEq] at hok
        rw [← hok]
        simp [ih l hts (fun u hu => hns u (List.mem_cons_of_mem t hu))]

/-- The `combined_outputs` produced by gathering the built coroutines are
exactly the per-task contributions, in declared task order. -/
theorem gatherCombined_chr (mk : Task → BStep) :
    ∀ (tasks : List Task) (coros : List (Except String (Option Res))) (cs : List String),
      buildCoros mk tasks = .ok coros → gatherCombined coros = .ok cs →
      cs = tasks.filterMap (bStepContribution mk) := by
  intro tasks
  induction tasks with
  | nil =>
    intro coros cs hb hg
    simp only [buildCoros, Except.ok.injEq] at hb
    rw [← hb] at hg
    simp only [gatherCombined, Except.ok.injEq] at hg
    simp [← hg]
  | cons t ts ih =>
    intro coros cs hb hg
    cases hmk : mk t with
    | skip =>
      simp only [buildCoros, hmk] at hb
      simp only [List.filterMap_cons, bStepContribution, hmk]
      exact ih coros cs hb hg
    | raiseB e => simp [buildCoros, hmk] at hb
    | coro c =>
      cases hts : buildCoros mk ts with
      | error e => simp [buildCoros, hmk, hts, Except.map] at hb
      | ok l =>
        simp only [buildCoros, hmk, hts, Except.map, Except.ok.injEq] at hb
        rw [← hb] at hg
        cases c with
        | error e =>
          simp only [gatherCombined] at hg
          simp only [List.filterMap_cons, bStepContribution, hmk]
          exact ih l cs hts hg
        | ok o =>
          cases o with
          | none => simp [gatherCombined] at hg
          | some r =>
            simp only [gatherCombined] at hg
            cases hl : gatherCombined l with
            | error e2 => rw [hl] at hg; simp at hg
            | ok cs' =>
              rw [hl] at hg
              simp only [Except.ok.injEq] at hg
              rw [← hg]
              simp only [List.filterMap_cons, bStepContribution, hmk]
              cases hcond : r.success && optTruthy r.output with
              | false => simp [hcond, ih l cs' hts hl]
              | true => simp [hcond, ih l cs' hts hl]

/-- The engine's broadcast dispatch never skips a recognized task. -/
theorem broadcastTaskStep_ne_skip (env : Env)
    (recur : FlowDef → List (String × String) → Option String → Except String Res)
    (varValues : List (String × String)) (prev : Option String) (t : Task)
    (h : recognizedTask t = true) : broadcastTaskStep env recur varValues prev t ≠ .skip := by
  unfold broadcastTaskStep
  cases hf : t.flow? with
  | some fname => cases hx : env.flows fname <;> simp [hx]
  | none =>
    cases ha : t.alias? with
    | some a => cases hs : splitColon a <;> simp [hs]
    | none =>
      cases hc : t.command? with
      | some c => simp
      | none =>
        unfold recognizedTask at h
        rw [hf, ha, hc] at h
        simp at h

/-- Claim C2: whenever a broadcast stage run by the engine's own dispatch
completes without an exception, its output is the newline-join of exactly
the per-task contributions — trimmed outputs of successful, truthy-output
tasks — in declared task order, and is absent when there are none; and when
every task is recognized, the recorded results align one-to-one with the
declared tasks. -/
theorem claim_C2 (env : Env)
    (recur : FlowDef → List (String × String) → Option String → Except String Res)
    (varValues : List (String × String)) (tasks : List Task) (prev : Option String)
    (rs : List Res) (out : Option String)
    (hok : runBroadcastStage env.taskRepr (broadcastTaskStep env recur varValues prev) tasks =
      .ok (rs, out)) :
    out = (let outs := tasks.filterMap (broadcastContribution env recur varValues prev)
           if outs.isEmpty then none else some (String.intercalate "\n" outs)) ∧
    ((∀ t ∈ tasks, recognizedTask t = true) → rs.length = tasks.length) := by
  cases hb : buildCoros (broadcastTaskStep env recur varValues prev) tasks with
  | error e => simp [runBroadcastStage, hb] at hok
  | ok coros =>
    cases hp : processGather env.taskRepr (tasks.zip coros) with
    | error e => simp [runBroadcastStage, hb, hp] at hok
    | ok q =>
      obtain ⟨rs', cs⟩ := q
      simp only [runBroadcastStage, hb, hp, Except.ok.injEq, Prod.mk.injEq] at hok
      obtain ⟨hrs, hout⟩ := hok
      subst hrs
      subst hout
      have hsnd : (tasks.zip coros).map Prod.snd = coros :=
        List.map_snd_zip tasks coros (buildCoros_length _ tasks coros hb)
      have hcs : gatherCombined coros = .ok cs := by
        rw [← hsnd]
        exact processGather_combined env.taskRepr (tasks.zip coros) rs' cs hp
      have hchr := gatherCombined_chr (broadcastTaskStep env recur varValues prev)
        tasks coros cs hb hcs
      constructor
      · rw [hchr]
        rfl
      · intro hall
        have hlen := processGather_length env.taskRepr (tasks.zip coros) rs' cs hp
        have heq : coros.length = tasks.length :=
          buildCoros_length_eq _ tasks coros hb
            (fun t ht => broadcastTaskStep_ne_skip env recur varValues prev t (hall t ht))
        rw [hlen, List.length_zip, heq]
        simp

theorem claim_C2_witness :
    (some "A\nB" : Option String) =
      (let outs := c2tasks.filterMap (broadcastContribution c2env unusedRecur [] (some "inp"))
       if outs.isEmpty then none else some (String.intercalate "\n" outs)) ∧
    c2rs.length = c2tasks.length := by
  have h := claim_C2 c2env unusedRecur [] c2tasks (some "inp") c2rs (some "A\nB") rfl
  exact ⟨h.1, h.2 (by decide)⟩

/-! ### Substitution lemmas (claim C7) -/

theorem replaceGo_fuel (pat rep : List Char) :
    ∀ (n g : Nat) (l : List Char), l.length ≤ n → l.length ≤ g →
      replaceGo pat rep n l = replaceGo pat rep g l := by
  intro n
  induction n with
  | zero =>
    intro g l hn _
    have h0 : l = [] := List.eq_nil_of_length_eq_zero (Nat.le_zero.mp hn)
    subst h0
    cases g <;> rfl
  | succ n ih =>
    intro g l hn hg
    cases l with
    | nil => cases g <;> rfl
    | cons c rest =>
      cases g with
      | zero => exact absurd hg (by simp)
      | succ g' =>
        simp only [List.length_cons] at hn hg
        simp only [replaceGo]
        by_cases hcond : (pat.isPrefixOf (c :: rest) && !pat.isEmpty) = true
        · rw [if_pos hcond, if_pos hcond]
          have hp : 1 ≤ pat.length := by
            have h2 := (Bool.and_eq_true _ _ |>.mp hcond).2
            cases pat with
            | nil => simp at h2
            | cons _ _ => simp
          congr 1
          apply ih
          · simp only [List.length_drop, List.length_cons]
            omega
          · simp only [List.length_drop, List.length_cons]
            omega
        · rw [if_neg hcond, if_neg hcond]
          congr 1
          apply ih <;> omega

/-- One scan with any sufficient fuel computes `replaceAll`. -/
theorem replaceGo_eq_replaceAll (pat rep : List Char) (g : Nat) (l : List Char)
    (h : l.length ≤ g) : replaceGo pat rep g l = replaceAll pat rep l :=
  replaceGo_fuel pat rep g l.length l h (Nat.le_refl _)

/-- A match at the very front is replaced and the scan continues after it. -/
theorem replaceAll_append_head (pat rep t : List Char) (hne : pat ≠ []) :
    replaceAll pat rep (pat ++ t) = rep ++ replaceAll pat rep t := by
  cases hpat : pat with
  | nil => exact absurd hpat hne
  | cons p pr =>
    show replaceGo (p :: pr) rep ((p :: pr) ++ t).length ((p :: pr) ++ t) = _
    have hlen : ((p :: pr) ++ t).length = (pr ++ t).length + 1 := by simp
    rw [hlen]
    simp only [List.cons_append, replaceGo]
    rw [if_pos ?hc]
    case hc =>
      have hpre : (p :: pr).isPrefixOf ((p :: pr) ++ t) = true := by
        simp [List.isPrefixOf_iff_prefix]
      simp only [List.cons_append] at hpre
      simp [hpre]
    have hd : (p :: (pr ++ t)).drop (p :: pr).length = t := by
      rw [← List.cons_append]
      exact List.drop_left (p :: pr) t
    simp only [List.append_eq]
    rw [hd]
    congr 1
    apply replaceGo_eq_replaceAll
    simp

/-- When no occurrence of the pattern starts inside `s` (also not one
spilling over into `t`), the scan copies `s` verbatim. -/
theorem replaceAll_append_no_match (pat rep : List Char) :
    ∀ (s t : List Char),
      (∀ l, l ≠ [] → l <:+ s → pat.isPrefixOf (l ++ t) = false) →
      replaceAll pat rep (s ++ t) = s ++ replaceAll pat rep t := by
  intro s
  induction s with
  | nil => intro t _; simp
  | cons c s' ih =>
    intro t h
    have h0 : pat.isPrefixOf ((c :: s') ++ t) = false :=
      h (c :: s') (by simp) (List.suffix_refl _)
    simp only [List.cons_append] at h0
    show replaceGo pat rep ((c :: s') ++ t).length ((c :: s') ++ t) = _
    have hlen : ((c :: s') ++ t).length = (s' ++ t).length + 1 := by simp
    rw [hlen]
    simp only [List.cons_append, replaceGo]
    rw [if_neg (by simp [h0])]
    simp only [List.append_eq]
    rw [replaceGo_eq_replaceAll pat rep (s' ++ t).length (s' ++ t) (Nat.le_refl _)]
    rw [ih t (fun l hl hs => h l hl (hs.trans (List.suffix_cons c s')))]

theorem hasOccur_append_no_match (pat : List Char) :
    ∀ (s t : List Char),
      (∀ l, l ≠ [] → l <:+ s → pat.isPrefixOf (l ++ t) = false) →
      hasOccur pat (s ++ t) = hasOccur pat t := by
  intro s
  induction s with
  | nil => intro t _; rfl
  | cons c s' ih =>
    intro t h
    have h0 : pat.isPrefixOf ((c :: s') ++ t) = false :=
      h (c :: s') (by simp) (List.suffix_refl _)
    simp only [List.cons_append] at h0
    simp only [List.cons_append, hasOccur, List.append_eq, h0, Bool.false_or]
    exact ih t (fun l hl hs => h l hl (hs.trans (List.suffix_cons c s')))

theorem hasOccur_append_head (pat t : List Char) (hne : pat ≠ []) :
    hasOccur pat (pat ++ t) = true := by
  cases hpat : pat with
  | nil => exact absurd hpat hne
  | cons p pr =>
    have hpre : (p :: pr).isPrefixOf ((p :: pr) ++ t) = true := by
      simp [List.isPrefixOf_iff_prefix]
    simp only [List.cons_append] at hpre
    simp [hasOccur, hpre]

theorem braceFree_mem {s : List Char} (h : braceFree s = true) {c : Char} (hc : c ∈ s) :
    c ≠ '{' ∧ c ≠ '}' := by
  unfold braceFree at h
  have := List.all_eq_true.mp h c hc
  constructor
  · intro he; subst he; simp at this
  · intro he; subst he; simp at this

/-- The placeholder pattern starts with a brace, so it cannot match starting
at any character of a brace-free block. -/
theorem no_match_of_no_brace (n : List Char) (s : List Char) (hs : ∀ c ∈ s, c ≠ '{') :
    ∀ l, l ≠ [] → l <:+ s → ∀ t, (placeholderChars n).isPrefixOf (l ++ t) = false := by
  intro l hl hsuf t
  cases l with
  | nil => exact absurd rfl hl
  | cons d l' =>
    have hd : d ≠ '{' := hs d (hsuf.subset (List.mem_cons_self d l'))
    have hb : ('{' == d) = false := beq_eq_false_iff_ne.mpr (Ne.symm hd)
    simp [placeholderChars, List.isPrefixOf, hb]

/-- Distinct brace-free names never make the body of one placeholder a
prefix of another placeholder's body followed by anything. -/
theorem ph_body_no_match :
    ∀ (n m t : List Char), braceFree n = true → braceFree m = true → n ≠ m →
      (n ++ ['}', '}']).isPrefixOf (m ++ '}' :: '}' :: t) = false := by
  intro n
  induction n with
  | nil =>
    intro m t _ hm hne
    cases m with
    | nil => exact absurd rfl hne
    | cons d m' =>
      have hd : d ≠ '}' := (braceFree_mem hm (List.mem_cons_self d m')).2
      have hb : ('}' == d) = false := beq_eq_false_iff_ne.mpr (Ne.symm hd)
      simp [List.isPrefixOf, hb]
  | cons c n' ih =>
    intro m t hn hne hneq
    have hc : c ≠ '}' := (braceFree_mem hn (List.mem_cons_self c n')).2
    have hn' : braceFree n' = true := by
      unfold braceFree at hn ⊢
      exact List.all_eq_true.mpr (fun x hx => List.all_eq_true.mp hn x (List.mem_cons_of_mem c hx))
    cases m with
    | nil =>
      have hb : (c == '}') = false := beq_eq_false_iff_ne.mpr hc
      simp [List.isPrefixOf, hb]
    | cons d m' =>
      have hm' : braceFree m' = true := by
        unfold braceFree at hne ⊢
        exact List.all_eq_true.mpr
          (fun x hx => List.all_eq_true.mp hne x (List.mem_cons_of_mem d hx))
      by_cases hcd : c = d
      · subst hcd
        have hne2 : n' ≠ m' := fun h => hneq (by rw [h])
        simp only [List.cons_append, List.isPrefixOf, List.append_eq]
        rw [ih m' t hn' hm' hne2]
        simp
      · have hb : (c == d) = false := beq_eq_false_iff_ne.mpr hcd
        simp [List.isPrefixOf, hb]

/-- The placeholder of `n` cannot match starting anywhere inside the
placeholder of a different brace-free name `m`. -/
theorem ph_block_no_match (n m : List Char) (hn : braceFree n = true)
    (hm : braceFree m = true) (hne : n ≠ m) :
    ∀ l, l ≠ [] → l <:+ placeholderChars m → ∀ t,
      (placeholderChars n).isPrefixOf (l ++ t) = false := by
  intro l hl hsuf t
  unfold placeholderChars at hsuf
  rcases List.suffix_cons_iff.mp hsuf with h1 | h2
  · subst h1
    have hbody := ph_body_no_match n m t hn hm hne
    simp only [placeholderChars, List.cons_append, List.isPrefixOf, List.append_eq]
    have hassoc : (m ++ ['}', '}']) ++ t = m ++ '}' :: '}' :: t := by simp
    rw [hassoc, hbody]
    simp
  · rcases List.suffix_cons_iff.mp h2 with h3 | h4
    · subst h3
      have hhead : ∀ d, d ∈ m ++ ['}', '}'] → d ≠ '{' := by
        intro d hd
        rcases List.mem_append.mp hd with hdm | hdt
        · exact (braceFree_mem hm hdm).1
        · intro he
          subst he
          simp at hdt
      cases hcm : m ++ ['}', '}'] with
      | nil => simp at hcm
      | cons d rest =>
        have hd : d ≠ '{' := hhead d (hcm ▸ List.mem_cons_self d rest)
        have hb : ('{' == d) = false := beq_eq_false_iff_ne.mpr (Ne.symm hd)
        simp [placeholderChars, List.isPrefixOf, hcm, hb]
    · have hhead : ∀ d ∈ m ++ ['}', '}'], d ≠ '{' := by
        intro d hd
        rcases List.mem_append.mp hd with hdm | hdt
        · exact (braceFree_mem hm hdm).1
        · intro he
          subst he
          simp at hdt
      exact no_match_of_no_brace n (m ++ ['}', '}']) hhead l hl h4 t

theorem placeholderChars_ne_nil (n : List Char) : placeholderChars n ≠ [] := by
  simp [placeholderChars]

/-- One `str.replace` pass over a well-formed template replaces exactly the
segments holding the substituted name. -/
theorem replaceAll_render (n v : List Char) (hn : braceFree n = true) :
    ∀ segs : List Seg, (∀ sg ∈ segs, segWf sg = true) →
      replaceAll (placeholderChars n) v (renderSegs segs) =
        renderSegs (segs.map (substSeg n v)) := by
  intro segs
  induction segs with
  | nil => intro _; rfl
  | cons sg rest ih =>
    intro hwf
    have hw := hwf sg (List.mem_cons_self sg rest)
    have hrest := fun u hu => hwf u (List.mem_cons_of_mem sg hu)
    cases sg with
    | lit s =>
      have hmem : ∀ c ∈ s, c ≠ '{' := fun c hc => (braceFree_mem hw hc).1
      simp only [renderSegs, List.map_cons, substSeg]
      rw [replaceAll_append_no_match _ _ s _
        (fun l hl hs => no_match_of_no_brace n s hmem l hl hs (renderSegs rest))]
      rw [ih hrest]
    | ph m =>
      by_cases hmn : m = n
      · subst hmn
        simp only [renderSegs, List.map_cons, substSeg, if_pos rfl]
        rw [replaceAll_append_head _ _ _ (placeholderChars_ne_nil m)]
        rw [ih hrest]
      · simp only [renderSegs, List.map_cons, substSeg, if_neg hmn]
        rw [replaceAll_append_no_match _ _ (placeholderChars m) _
          (fun l hl hs =>
            ph_block_no_match n m hn hw (Ne.symm hmn) l hl hs (renderSegs rest))]
        rw [ih hrest]

theorem segWf_substSeg (n v : List Char) (hv : braceFree v = true) (sg : Seg)
    (h : segWf sg = true) : segWf (substSeg n v sg) = true := by
  cases sg with
  | lit s => exact h
  | ph m =>
    by_cases hmn : m = n
    · simp [substSeg, if_pos hmn, segWf, hv]
    · simp [substSeg, if_neg hmn, segWf]
      exact h

/-- Substituting all bindings in order over a rendered well-formed template
renders the segment-wise substitution. -/
theorem substPairs_render :
    ∀ (ps : List (String × String)) (segs : List Seg),
      (∀ p ∈ ps, braceFree p.1.data = true) → (∀ p ∈ ps, braceFree p.2.data = true) →
      (∀ sg ∈ segs, segWf sg = true) →
      substPairsChars ps (renderSegs segs) =
        renderSegs (ps.foldl (fun sgs p => sgs.map (substSeg p.1.data p.2.data)) segs) := by
  intro ps
  induction ps with
  | nil => intro segs _ _ _; rfl
  | cons p rest ih =>
    intro segs hn hv hwf
    have hstep : substPairsChars (p :: rest) (renderSegs segs) =
        substPairsChars rest (replaceAll (placeholderChars p.1.data) p.2.data (renderSegs segs)) :=
      rfl
    rw [hstep, List.foldl_cons,
      replaceAll_render p.1.data p.2.data (hn p (List.mem_cons_self p rest)) segs hwf]
    exact ih (segs.map (substSeg p.1.data p.2.data))
      (fun q hq => hn q (List.mem_cons_of_mem p hq))
      (fun q hq => hv q (List.mem_cons_of_mem p hq))
      (fun sg hs => by
        obtain ⟨u, hu, rfl⟩ := List.mem_map.mp hs
        exact segWf_substSeg p.1.data p.2.data (hv p (List.mem_cons_self p rest)) u (hwf u hu))

theorem foldl_map_subst :
    ∀ (ps : List (String × String)) (segs : List Seg),
      ps.foldl (fun sgs p => sgs.map (substSeg p.1.data p.2.data)) segs =
        segs.map (resolvePairs ps) := by
  intro ps
  induction ps with
  | nil =>
    intro segs
    have h0 : resolvePairs ([] : List (String × String)) = fun sg => sg := rfl
    rw [h0]
    exact (List.map_id' segs).symm
  | cons p rest ih =>
    intro segs
    simp only [List.foldl_cons]
    rw [ih (segs.map (substSeg p.1.data p.2.data)), List.map_map]
    rfl

theorem resolvePairs_lit : ∀ (ps : List (String × String)) (s : List Char),
    resolvePairs ps (.lit s) = .lit s := by
  intro ps
  induction ps with
  | nil => intro s; rfl
  | cons p rest ih =>
    intro s
    simp only [resolvePairs, List.foldl_cons, substSeg]
    exact ih s

theorem resolvePairs_ph : ∀ (ps : List (String × String)) (m : List Char),
    resolvePairs ps (.ph m) =
      (match lookupCh ps m with
       | some v => Seg.lit v.data
       | none => Seg.ph m) := by
  intro ps
  induction ps with
  | nil => intro m; rfl
  | cons p rest ih =>
    intro m
    have hstep : resolvePairs (p :: rest) (Seg.ph m) =
        resolvePairs rest (substSeg p.1.data p.2.data (Seg.ph m)) := rfl
    have hlk : lookupCh (p :: rest) m =
        (if p.1.data = m then some p.2 else lookupCh rest m) := rfl
    by_cases hm : m = p.1.data
    · rw [hstep, show substSeg p.1.data p.2.data (Seg.ph m) = Seg.lit p.2.data by
        simp [substSeg, if_pos hm]]
      rw [resolvePairs_lit, hlk, if_pos hm.symm]
    · rw [hstep, show substSeg p.1.data p.2.data (Seg.ph m) = Seg.ph m by
        simp [substSeg, hm]]
      rw [hlk, if_neg (fun he => hm he.symm)]
      exact ih m

theorem segWf_resolvePairs :
    ∀ (ps : List (String × String)), (∀ p ∈ ps, braceFree p.2.data = true) →
      ∀ sg : Seg, segWf sg = true → segWf (resolvePairs ps sg) = true := by
  intro ps
  induction ps with
  | nil => intro _ sg h; exact h
  | cons p rest ih =>
    intro hv sg h
    simp only [resolvePairs, List.foldl_cons]
    exact ih (fun q hq => hv q (List.mem_cons_of_mem p hq))
      (substSeg p.1.data p.2.data sg)
      (segWf_substSeg p.1.data p.2.data (hv p (List.mem_cons_self p rest)) sg h)

/-- Over a well-formed template, an occurrence of the placeholder of a
brace-free name is exactly a placeholder segment with that name. -/
theorem hasOccur_render (n : List Char) (hn : braceFree n = true) :
    ∀ segs : List Seg, (∀ sg ∈ segs, segWf sg = true) →
      (hasOccur (placeholderChars n) (renderSegs segs) = true ↔ Seg.ph n ∈ segs) := by
  intro segs
  induction segs with
  | nil =>
    intro _
    simp [renderSegs, hasOccur, placeholderChars]
  | cons sg rest ih =>
    intro hwf
    have hw := hwf sg (List.mem_cons_self sg rest)
    have hrest := fun u hu => hwf u (List.mem_cons_of_mem sg hu)
    cases sg with
    | lit s =>
      have hmem : ∀ c ∈ s, c ≠ '{' := fun c hc => (braceFree_mem hw hc).1
      simp only [renderSegs]
      rw [hasOccur_append_no_match _ s _
        (fun l hl hs => no_match_of_no_brace n s hmem l hl hs (renderSegs rest))]
      rw [ih hrest]
      simp
    | ph m =>
      by_cases hmn : m = n
      · subst hmn
        simp only [renderSegs]
        rw [hasOccur_append_head _ _ (placeholderChars_ne_nil m)]
        simp
      · simp only [renderSegs]
        rw [hasOccur_append_no_match _ (placeholderChars m) _
          (fun l hl hs =>
            ph_block_no_match n m hn hw (Ne.symm hmn) l hl hs (renderSegs rest))]
        rw [ih hrest]
        constructor
        · intro h
          exact List.mem_cons_of_mem _ h
        · intro h
          rcases List.mem_cons.mp h with h1 | h2
          · exact absurd (Seg.ph.inj h1) (Ne.symm hmn)
          · exact h2

theorem lookupCh_mem : ∀ (ps : List (String × String)) (n : List Char) (v : String),
    lookupCh ps n = some v → ∃ p ∈ ps, p.1.data = n := by
  intro ps
  induction ps with
  | nil => intro n v h; simp [lookupCh] at h
  | cons p rest ih =>
    intro n v h
    by_cases hp : p.1.data = n
    · exact ⟨p, List.mem_cons_self p rest, hp⟩
    · simp only [lookupCh, if_neg hp] at h
      obtain ⟨q, hq, hqd⟩ := ih n v h
      exact ⟨q, List.mem_cons_of_mem p hq, hqd⟩

/-- Claim C7 (amended): over templates that alternate brace-free literal
chunks and brace-free-named placeholders, with brace-free bound values,
substitution in binding order replaces every placeholder whose name is
bound with its (first) bound value, leaves unbound placeholders verbatim,
and no bound placeholder survives; and the alias path performs the same
pair substitution as the command path, restricted to the declared variable
names that have a processed binding. -/
theorem claim_C7_amended (ps : List (String × String)) (segs : List Seg)
    (hn : ∀ p ∈ ps, braceFree p.1.data = true)
    (hv : ∀ p ∈ ps, braceFree p.2.data = true)
    (hs : ∀ sg ∈ segs, segWf sg = true) :
    substPairsChars ps (renderSegs segs) = renderSegs (segs.map (resolvePairs ps)) ∧
    (∀ n : List Char, (lookupCh ps n).isSome = true →
      hasOccur (placeholderChars n) (substPairsChars ps (renderSegs segs)) = false) ∧
    (∀ n : List Char, braceFree n = true → lookupCh ps n = none →
      hasOccur (placeholderChars n) (substPairsChars ps (renderSegs segs)) =
        hasOccur (placeholderChars n) (renderSegs segs)) ∧
    (∀ (processed : List (String × String)) (varNames : List String) (tmpl : List Char),
      aliasSubstChars processed varNames tmpl =
        substPairsChars
          (varNames.filterMap (fun nm => (processed.lookup nm).map (fun v => (nm, v)))) tmpl) := by
  have hmain : substPairsChars ps (renderSegs segs) = renderSegs (segs.map (resolvePairs ps)) := by
    rw [substPairs_render ps segs hn hv hs, foldl_map_subst]
  have hwf2 : ∀ sg ∈ segs.map (resolvePairs ps), segWf sg = true := by
    intro sg hsg
    obtain ⟨u, hu, rfl⟩ := List.mem_map.mp hsg
    exact segWf_resolvePairs ps hv u (hs u hu)
  refine ⟨hmain, ?_, ?_, ?_⟩
  · intro n hbound
    cases hl : lookupCh ps n with
    | none => rw [hl] at hbound; simp at hbound
    | some v =>
      have hnbf : braceFree n = true := by
        obtain ⟨p, hp, hpd⟩ := lookupCh_mem ps n v hl
        rw [← hpd]
        exact hn p hp
      rw [hmain]
      have hiff := hasOccur_render n hnbf (segs.map (resolvePairs ps)) hwf2
      have hnotin : Seg.ph n ∉ segs.map (resolvePairs ps) := by
        intro hmem
        obtain ⟨u, hu, hresolved⟩ := List.mem_map.mp hmem
        cases u with
        | lit s => rw [resolvePairs_lit] at hresolved; exact Seg.noConfusion hresolved
        | ph m =>
          rw [resolvePairs_ph] at hresolved
          cases hlm : lookupCh ps m with
          | some w => rw [hlm] at hresolved; exact Seg.noConfusion hresolved
          | none =>
            rw [hlm] at hresolved
            have hmn : m = n := Seg.ph.inj hresolved
            rw [hmn, hl] at hlm
            exact Option.noConfusion hlm
      cases hocc : hasOccur (placeholderChars n) (renderSegs (segs.map (resolvePairs ps))) with
      | false => rfl
      | true => exact absurd (hiff.mp hocc) hnotin
  · intro n hnbf hunbound
    rw [hmain]
    rw [Bool.eq_iff_iff]
    rw [hasOccur_render n hnbf (segs.map (resolvePairs ps)) hwf2]
    rw [hasOccur_render n hnbf segs hs]
    constructor
    · intro hmem
      obtain ⟨u, hu, hresolved⟩ := List.mem_map.mp hmem
      cases u with
      | lit s => rw [resolvePairs_lit] at hresolved; exact Seg.noConfusion hresolved
      | ph m =>
        rw [resolvePairs_ph] at hresolved
        cases hlm : lookupCh ps m with
        | some w => rw [hlm] at hresolved; exact Seg.noConfusion hresolved
        | none =>
          rw [hlm] at hresolved
          rw [Seg.ph.inj hresolved] at hu
          exact hu
    · intro hmem
      have : resolvePairs ps (Seg.ph n) = Seg.ph n := by
        rw [resolvePairs_ph, hunbound]
      rw [← this]
      exact List.mem_map_of_mem (resolvePairs ps) hmem
  · intro processed varNames
    induction varNames with
    | nil => intro tmpl; rfl
    | cons nm restN ihn =>
      intro tmpl
      cases hl : processed.lookup nm with
      | none =>
        simp only [aliasSubstChars, List.foldl_cons, hl, List.filterMap_cons, Option.map_none']
        exact ihn tmpl
      | some v =>
        simp only [aliasSubstChars, List.foldl_cons, hl, List.filterMap_cons, Option.map_some']
        exact ihn (replaceAll (placeholderChars nm.data) v.data tmpl)

/-- Claim C7 is false as stated: substituting `c7pairs` into `c7tmpl`
leaves the bound variable `a`'s placeholder in the final command —
replacement text can reintroduce a bound placeholder. -/
theorem claim_C7_counterexample :
    commandSubst c7pairs c7tmpl = String.mk ['{', '{', 'a', '}', '}'] ∧
    (c7pairs.lookup "a").isSome = true ∧
    hasOccur (placeholderChars ['a']) (commandSubst c7pairs c7tmpl).data = true := by
  refine ⟨rfl, rfl, ?_⟩
  decide

theorem claim_C7_witness :
    substPairsChars c7goodPairs (renderSegs c7segs) =
      renderSegs (c7segs.map (resolvePairs c7goodPairs)) ∧
    hasOccur (placeholderChars ['x']) (substPairsChars c7goodPairs (renderSegs c7segs)) = false := by
  have h := claim_C7_amended c7goodPairs c7segs (by decide) (by decide) (by decide)
  exact ⟨h.1, h.2.1 ['x'] (by decide)⟩

end Hacktopus
